import Mathlib

/-!
Verification of the pokedex-go core subsystem: the TTL cache
(`internal/pokecache/pokecache.go`) and the concurrent fetch-aggregate
pipeline (`internal/utils`, function `GetLocationAreas`), together with the
pagination guard `commandMapb` from `cmd/pokedex/main.go`.

The Go code is shallowly embedded:
* `[]byte` payloads become `ByteStr := List Nat`;
* the Go `map[string]cacheEntry` becomes an association list with
  overwrite-on-insert semantics (`mapInsert` / `mapLookup`);
* `time.Time` becomes an `Int` timestamp passed explicitly to `Add` and to
  the reaper sweep;
* `http.Get` becomes an injected transport `FetchTransport` returning either
  a transport error or a response carrying a status code and a body-read
  result; `json.Unmarshal` becomes injected decoder functions;
* the mutation of `*UrlConfig` and `*Cache` through pointers becomes explicit
  state threading: `GetLocationAreas` returns the result together with the
  updated `UrlConfig` and cache state;
* the concurrent fan-out / fan-in over goroutines and channels becomes a
  sequential partition of the per-reference outcomes (`fanOut`); the claims
  under study are about counts and memberships, which the Go code itself
  declares order-irrelevant.
-/

/-- Byte strings: the embedding of Go `[]byte`. -/
abbrev ByteStr := List Nat

/-- Go `pokecache.cacheEntry`: `{ createdAt time.Time; val []byte }`. -/
structure cacheEntry where
  createdAt : Int
  val : ByteStr
  deriving DecidableEq, Repr

/-- The entry store of Go `pokecache.Cache` (`map[string]cacheEntry`),
embedded as an association list with unique-key overwrite semantics. -/
abbrev CacheMap := List (String × cacheEntry)

/-- Go map read `c.cacheMap[key]`: first entry whose key matches. -/
def mapLookup : CacheMap → String → Option cacheEntry
  | [], _ => none
  | (k, e) :: rest, key => if k = key then some e else mapLookup rest key

/-- Go map write `c.cacheMap[key] = entry`: overwrite in place, or append
when the key is absent. -/
def mapInsert : CacheMap → String → cacheEntry → CacheMap
  | [], key, e => [(key, e)]
  | (k, old) :: rest, key, e =>
      if k = key then (key, e) :: rest else (k, old) :: mapInsert rest key e

/-- Go `Cache.Add`: stores `val` under `key` stamped with the current time
(`now` is the explicit embedding of `time.Now()`).  Returns the new state. -/
def cacheAdd (c : CacheMap) (key : String) (val : ByteStr) (now : Int) : CacheMap :=
  mapInsert c key { createdAt := now, val := val }

/-- Go `Cache.Get`: returns `(val.val, true)` on a hit, `(nil, false)` on a
miss, together with the (unchanged) store state, since in Go the method is
called on the shared `*Cache`. -/
def cacheGet (c : CacheMap) (key : String) : (Option ByteStr × Bool) × CacheMap :=
  match mapLookup c key with
  | some e => ((some e.val, true), c)
  | none => ((none, false), c)

/-- One pass of the body of Go `Cache.reapLoop`: at tick time `now`, delete
every entry with `value.createdAt.Before(time.Now().Add(-interval))`, i.e.
with `createdAt < now - interval`. -/
def reapSweep (now interval : Int) : CacheMap → CacheMap
  | [] => []
  | (k, e) :: rest =>
      if e.createdAt < now - interval then reapSweep now interval rest
      else (k, e) :: reapSweep now interval rest

/-- A sequence of reaper ticks at the given times (Go `reapLoop` runs one
sweep per `ticker` tick). -/
def applySweeps (interval : Int) : List Int → CacheMap → CacheMap
  | [], c => c
  | s :: ss, c => applySweeps interval ss (reapSweep s interval c)

/-! ### Basic cache lemmas -/

theorem mapLookup_mapInsert_self (c : CacheMap) (key : String) (e : cacheEntry) :
    mapLookup (mapInsert c key e) key = some e := by
  induction c with
  | nil => simp [mapInsert, mapLookup]
  | cons kv rest ih =>
      obtain ⟨k, old⟩ := kv
      by_cases hk : k = key
      · simp [mapInsert, hk, mapLookup]
      · simp [mapInsert, hk, mapLookup, ih]

theorem mapLookup_reapSweep_kept (s d : Int) (c : CacheMap) (key : String)
    (e : cacheEntry) (hfound : mapLookup c key = some e)
    (hkeep : ¬ e.createdAt < s - d) :
    mapLookup (reapSweep s d c) key = some e := by
  induction c with
  | nil => simp [mapLookup] at hfound
  | cons kv rest ih =>
      obtain ⟨k, e1⟩ := kv
      by_cases hk : k = key
      · subst hk
        simp [mapLookup] at hfound
        subst hfound
        simp [reapSweep, hkeep, mapLookup]
      · simp [mapLookup, hk] at hfound
        by_cases hdel : e1.createdAt < s - d
        · simp [reapSweep, hdel, ih hfound]
        · simp [reapSweep, hdel, mapLookup, hk, ih hfound]

theorem mapLookup_reapSweep_none (s d : Int) (c : CacheMap) (key : String)
    (hnone : mapLookup c key = none) :
    mapLookup (reapSweep s d c) key = none := by
  induction c with
  | nil => simp [reapSweep, mapLookup]
  | cons kv rest ih =>
      obtain ⟨k, e1⟩ := kv
      by_cases hk : k = key
      · simp [mapLookup, hk] at hnone
      · simp [mapLookup, hk] at hnone
        by_cases hdel : e1.createdAt < s - d
        · simp [reapSweep, hdel, ih hnone]
        · simp [reapSweep, hdel, mapLookup, hk, ih hnone]

theorem mapLookup_applySweeps_none (d : Int) (ss : List Int) (c : CacheMap)
    (key : String) (hnone : mapLookup c key = none) :
    mapLookup (applySweeps d ss c) key = none := by
  induction ss generalizing c with
  | nil => simpa [applySweeps] using hnone
  | cons s ss ih =>
      simp only [applySweeps]
      exact ih _ (mapLookup_reapSweep_none s d c key hnone)

theorem reapSweep_sublist (s d : Int) (c : CacheMap) :
    (reapSweep s d c).Sublist c := by
  induction c with
  | nil => simp [reapSweep]
  | cons kv rest ih =>
      obtain ⟨k, e⟩ := kv
      by_cases hdel : e.createdAt < s - d
      · simp only [reapSweep, hdel, if_true]
        exact ih.cons _
      · simp only [reapSweep, hdel, if_false]
        exact ih.cons₂ _

theorem keys_nodup_reapSweep (s d : Int) (c : CacheMap)
    (hnodup : (c.map Prod.fst).Nodup) :
    ((reapSweep s d c).map Prod.fst).Nodup :=
  ((reapSweep_sublist s d c).map Prod.fst).nodup hnodup

theorem mapLookup_eq_none_of_not_mem_keys (c : CacheMap) (key : String)
    (h : key ∉ c.map Prod.fst) :
    mapLookup c key = none := by
  induction c with
  | nil => simp [mapLookup]
  | cons kv rest ih =>
      obtain ⟨k, e⟩ := kv
      simp only [List.map_cons, List.mem_cons, not_or] at h
      have hk : ¬ k = key := fun hc => h.1 hc.symm
      simp only [mapLookup, hk, if_false]
      exact ih h.2

theorem mapLookup_reapSweep_expired (s d : Int) (c : CacheMap) (key : String)
    (e : cacheEntry) (hnodup : (c.map Prod.fst).Nodup)
    (hfound : mapLookup c key = some e) (hexp : e.createdAt < s - d) :
    mapLookup (reapSweep s d c) key = none := by
  induction c with
  | nil => simp [mapLookup] at hfound
  | cons kv rest ih =>
      obtain ⟨k, e1⟩ := kv
      simp only [List.map_cons, List.nodup_cons] at hnodup
      by_cases hk : k = key
      · subst hk
        simp [mapLookup] at hfound
        subst hfound
        have hrest : mapLookup rest k = none :=
          mapLookup_eq_none_of_not_mem_keys rest k hnodup.1
        simp only [reapSweep, hexp, if_true]
        exact mapLookup_reapSweep_none s d rest k hrest
      · simp only [mapLookup, hk, if_false] at hfound
        by_cases hdel : e1.createdAt < s - d
        · simp only [reapSweep, hdel, if_true]
          exact ih hnodup.2 hfound
        · simp only [reapSweep, hdel, if_false, mapLookup, hk]
          exact ih hnodup.2 hfound

/-! ### Cache claims -/

/-- C6: for every cache state `c`, key `k` and payload `p`, `Add(k, p)`
followed immediately by `Get(k)` returns `(p, true)` — also when `k` was
already present, since `Add` overwrites, and `Add` has no failure condition
(it is a total function on the state). -/
theorem cache_add_get_roundtrip (c : CacheMap) (k : String) (p : ByteStr) (now : Int) :
    cacheGet (cacheAdd c k p now) k = ((some p, true), cacheAdd c k p now) := by
  unfold cacheGet cacheAdd
  rw [mapLookup_mapInsert_self]

/-- C8: `Get` never mutates the cache: the state component of the result of
`cacheGet` is the input state itself, so every field of every entry is
identical before and after the call (entries are deleted only by the reaper
sweep `reapSweep`, never by `Get`). -/
theorem cache_get_no_mutation (c : CacheMap) (k : String) :
    (cacheGet c k).2 = c := by
  unfold cacheGet
  cases mapLookup c k <;> rfl

/-- C9: `Get` on a key with no entry in the store (never added, or already
deleted by the reaper) returns `found = false` with a `nil` payload
(embedded as `none`), and leaves the state unchanged. -/
theorem cache_get_miss (c : CacheMap) (k : String)
    (h : mapLookup c k = none) :
    cacheGet c k = ((none, false), c) := by
  unfold cacheGet
  rw [h]

theorem cache_get_miss_witness :
    cacheGet [("a", { createdAt := 0, val := [1] })] "b" =
      ((none, false), [("a", { createdAt := 0, val := [1] })]) :=
  cache_get_miss [("a", { createdAt := 0, val := [1] })] "b" (by decide)

/-- C7: TTL eviction.  If the store holds an entry for `k` created at time
`t` and the reaper interval is `d`, then (1) the entry survives every
sequence of reaper sweeps all of whose tick times are at most `t + d` — in
particular any observation before `t + d`, such as `t + d/2`, still sees it,
because the sweep only deletes entries with `createdAt < tick - d`, i.e.
entries strictly older than `d`; and (2) after any sweep whose tick time is
strictly later than `t + d` the entry is gone and stays gone under all
further sweeps. -/
theorem cache_ttl_eviction (c : CacheMap) (k : String) (t : Int) (p : ByteStr)
    (d : Int) (hnodup : (c.map Prod.fst).Nodup)
    (hfound : mapLookup c k = some { createdAt := t, val := p }) :
    (∀ ss : List Int, (∀ s ∈ ss, s ≤ t + d) →
        mapLookup (applySweeps d ss c) k = some { createdAt := t, val := p }) ∧
    (∀ s : Int, ∀ ss : List Int, t + d < s →
        mapLookup (applySweeps d ss (reapSweep s d c)) k = none) := by
  constructor
  · intro ss hss
    induction ss generalizing c with
    | nil => simpa [applySweeps] using hfound
    | cons s ss ih =>
        simp only [applySweeps]
        have hs : s ≤ t + d := hss s (List.mem_cons_self s ss)
        have hkeep : ¬ ({ createdAt := t, val := p } : cacheEntry).createdAt < s - d := by
          show ¬ t < s - d
          omega
        exact ih (reapSweep s d c)
          (keys_nodup_reapSweep s d c hnodup)
          (mapLookup_reapSweep_kept s d c k _ hfound hkeep)
          (fun x hx => hss x (List.mem_cons_of_mem s hx))
  · intro s ss hs
    have hexp : ({ createdAt := t, val := p } : cacheEntry).createdAt < s - d := by
      show t < s - d
      omega
    have h1 := mapLookup_reapSweep_expired s d c k _ hnodup hfound hexp
    exact mapLookup_applySweeps_none d ss _ k h1

theorem cache_ttl_eviction_witness :
    mapLookup (applySweeps 10 [5, 10] [("k", { createdAt := 0, val := [1] })]) "k" =
      some { createdAt := 0, val := [1] } ∧
    mapLookup (applySweeps 10 [20] [("k", { createdAt := 0, val := [1] })]) "k" = none := by
  have h := cache_ttl_eviction [("k", { createdAt := 0, val := [1] })] "k" 0 [1] 10
    (by decide) (by decide)
  exact ⟨h.1 [5, 10] (by decide), h.2 20 [] (by decide)⟩

/-! ### The fetch pipeline (`internal/utils`, function `GetLocationAreas`) -/

/-- Go `utils.NamedAPIResource`: one reference in a list page. -/
structure NamedAPIResource where
  name : String
  url : String
  deriving DecidableEq, Repr

/-- Go `utils.NamedAPIResourceList`: the decoded shape of one list-page
response (`count, next, previous, results`); `next`/`previous` are nullable
in the JSON, hence `Option`. -/
structure NamedAPIResourceList where
  count : Nat
  next : Option String
  previous : Option String
  results : List NamedAPIResource
  deriving DecidableEq, Repr

/-- Go `utils.LocationArea`: the decoded detail record.  The pipeline never
inspects any field beyond handing the record back to the caller (callers
read `.Name`), so only the identifying fields are carried; the nested
encounter sub-structures are opaque to every claim under study. -/
structure LocationArea where
  id : Int
  name : String
  deriving DecidableEq, Repr

/-- Go `utils.UrlConfig`: the pagination cursor, both fields nullable. -/
structure UrlConfig where
  previous : Option String
  next : Option String
  deriving DecidableEq, Repr

/-- The result of Go `http.Get` when no transport error occurred: a status
code plus the result of `io.ReadAll(resp.Body)` (which may itself fail). -/
structure HttpResponse where
  statusCode : Nat
  bodyRead : Except String ByteStr

/-- The injected transport capability: Go `http.Get`, returning either a
transport error or a response. -/
abbrev FetchTransport := String → Except String HttpResponse

/-- The injected decode capability for the list envelope
(Go `json.Unmarshal` into `NamedAPIResourceList`). -/
abbrev ListDecoder := ByteStr → Except String NamedAPIResourceList

/-- The injected decode capability for one detail record
(Go `json.Unmarshal` into `LocationArea`). -/
abbrev DetailDecoder := ByteStr → Except String LocationArea

/-- The URL selection at the top of `GetLocationAreas`:
`if direction == "forward" { listAPIURL = *config.Next } else { listAPIURL = *config.Previous }`.
Dereferencing a nil pointer panics in Go, hence the `Option` result here;
the panic case is made explicit in `GetLocationAreas`. -/
def selectUrl (config : UrlConfig) (direction : String) : Option String :=
  if direction = "forward" then config.next else config.previous

/-- Step 1 of `GetLocationAreas`: resolve the list-page body and decode it.
Mirrors the Go control flow exactly: `cache.Get(listAPIURL)`; on a hit,
unmarshal the cached bytes; on a miss, `http.Get`, insist on status 200
(`http.StatusOK`), `io.ReadAll` the body, `cache.Add(listAPIURL, body)`
BEFORE unmarshaling, then unmarshal.  The cache state is returned in both
the success and the error case, because in Go the cache is mutated through
a shared pointer and a later decode failure does not roll `Add` back. -/
def listResolve (dl : ListDecoder) (f : FetchTransport) (now : Int)
    (url : String) (cache : CacheMap) :
    Except String NamedAPIResourceList × CacheMap :=
  match cacheGet cache url with
  | ((some data, _), c) =>
      (match dl data with
       | Except.ok rl => Except.ok rl
       | Except.error e => Except.error e, c)
  | ((none, _), c) =>
      match f url with
      | Except.error e => (Except.error e, c)
      | Except.ok resp =>
          if resp.statusCode ≠ 200 then
            (Except.error "non-OK HTTP status", c)
          else
            match resp.bodyRead with
            | Except.error e => (Except.error e, c)
            | Except.ok body =>
                let c2 := cacheAdd c url body now
                (match dl body with
                 | Except.ok rl => Except.ok rl
                 | Except.error e => Except.error e, c2)

/-- The body of one detail-fetch goroutine in `GetLocationAreas`.  Note that
the Go goroutine does `http.Get(url)` directly: it never consults the cache
and never stores into it.  A failure is reported on the error channel
carrying the offending URL (embedded as the first component of the pair). -/
def fetchDetail (dd : DetailDecoder) (f : FetchTransport) (url : String) :
    Except (String × String) LocationArea :=
  match f url with
  | Except.error e =>
      Except.error (url, "error making HTTP request for " ++ url ++ ": " ++ e)
  | Except.ok resp =>
      if resp.statusCode ≠ 200 then
        Except.error (url, "received non-OK HTTP status for " ++ url)
      else
        match resp.bodyRead with
        | Except.error e =>
            Except.error (url, "error reading detail response body for " ++ url ++ ": " ++ e)
        | Except.ok body =>
            match dd body with
            | Except.error e =>
                Except.error (url, "error unmarshaling detail JSON for " ++ url ++ ": " ++ e)
            | Except.ok la => Except.ok la

/-- The fan-out / fan-in of `GetLocationAreas`: one unit per reference, each
outcome partitioned into `allLocationAreas` (successes) or
`encounteredErrors` (per-item failures).  The Go collection order over the
two channels is scheduler-dependent and declared order-irrelevant; the
embedding partitions in list order. -/
def fanOut (dd : DetailDecoder) (f : FetchTransport) :
    List NamedAPIResource → List LocationArea × List (String × String)
  | [] => ([], [])
  | r :: rs =>
      match fetchDetail dd f r.url, fanOut dd f rs with
      | Except.ok la, (las, errs) => (la :: las, errs)
      | Except.error e, (las, errs) => (las, e :: errs)

/-- Go `utils.GetLocationAreas(config, direction, cache)`.  The pointer
mutations of `*config` and `*cache` become the returned `UrlConfig` and
`CacheMap`; the Go return value `([]LocationArea, error)` together with the
collected (printed) `encounteredErrors` becomes the `Except`: a top-level
error carries no records, a top-level `ok` carries the records AND the
per-item error list.  After a successful list resolve the cursor is updated
(`config.Next = resourceList.Next; config.Previous = resourceList.Previous`)
before the fan-out is dispatched, and the function always ends in
`return allLocationAreas, nil`. -/
def GetLocationAreas (dl : ListDecoder) (dd : DetailDecoder)
    (f : FetchTransport) (now : Int) (config : UrlConfig) (direction : String)
    (cache : CacheMap) :
    Except String (List LocationArea × List (String × String)) × UrlConfig × CacheMap :=
  match selectUrl config direction with
  | none =>
      -- Go dereferences a nil pointer here and panics.
      (Except.error "runtime error: invalid memory address or nil pointer dereference",
       config, cache)
  | some listAPIURL =>
      match listResolve dl f now listAPIURL cache with
      | (Except.error e, cache1) => (Except.error e, config, cache1)
      | (Except.ok resourceList, cache1) =>
          let config1 : UrlConfig :=
            { previous := resourceList.previous, next := resourceList.next }
          let outcome := fanOut dd f resourceList.results
          (Except.ok outcome, config1, cache1)

/-- Go `commandMapb` (`cmd/pokedex/main.go`): the backward-page command.
`if config.Previous != nil` it delegates to
`utils.GetLocationAreas(config, "backward", cache)` (printing the area
names, which the embedding drops); otherwise it prints a notice and returns
`errors.New("No previous page available.")` without touching transport or
cache. -/
def commandMapb (dl : ListDecoder) (dd : DetailDecoder) (f : FetchTransport)
    (now : Int) (config : UrlConfig) (cache : CacheMap) :
    Except String Unit × UrlConfig × CacheMap :=
  match config.previous with
  | some _ =>
      match GetLocationAreas dl dd f now config "backward" cache with
      | (Except.error e, config1, cache1) => (Except.error e, config1, cache1)
      | (Except.ok _, config1, cache1) => (Except.ok (), config1, cache1)
  | none => (Except.error "No previous page available.", config, cache)

/-- Whether the detail fetch for reference `r` fails (lands on the error
channel). -/
def detailFails (dd : DetailDecoder) (f : FetchTransport)
    (r : NamedAPIResource) : Bool :=
  match fetchDetail dd f r.url with
  | Except.ok _ => false
  | Except.error _ => true

/-- Modelled from the spec (section 4.2 step 4), NOT from the source, for
comparison: the spec claims each detail fetch follows the same
cache-or-network rule as the list fetch (cache check, then network, then
store the raw body in the cache keyed by the URL, then decode).  The source
goroutine has no cache interaction at all; this definition exists solely to
exhibit that divergence. -/
def fetchDetailSpecRule (dd : DetailDecoder) (f : FetchTransport) (now : Int)
    (url : String) (cache : CacheMap) :
    Except (String × String) LocationArea × CacheMap :=
  match cacheGet cache url with
  | ((some data, _), c) =>
      (match dd data with
       | Except.ok la => Except.ok la
       | Except.error e =>
           Except.error (url, "error unmarshaling detail JSON for " ++ url ++ ": " ++ e), c)
  | ((none, _), c) =>
      match f url with
      | Except.error e =>
          (Except.error (url, "error making HTTP request for " ++ url ++ ": " ++ e), c)
      | Except.ok resp =>
          if resp.statusCode ≠ 200 then
            (Except.error (url, "received non-OK HTTP status for " ++ url), c)
          else
            match resp.bodyRead with
            | Except.error e =>
                (Except.error (url, "error reading detail response body for " ++ url ++ ": " ++ e), c)
            | Except.ok body =>
                let c2 := cacheAdd c url body now
                (match dd body with
                 | Except.ok la => Except.ok la
                 | Except.error e =>
                     Except.error (url, "error unmarshaling detail JSON for " ++ url ++ ": " ++ e), c2)

/-! ### Fan-out lemmas -/

theorem fetchDetail_error_url (dd : DetailDecoder) (f : FetchTransport)
    (url : String) (p : String × String)
    (h : fetchDetail dd f url = Except.error p) : p.1 = url := by
  unfold fetchDetail at h
  cases hf : f url with
  | error e =>
      rw [hf] at h
      injection h with h1
      rw [← h1]
  | ok resp =>
      rw [hf] at h
      dsimp only at h
      by_cases h200 : resp.statusCode ≠ 200
      · rw [if_pos h200] at h
        injection h with h1
        rw [← h1]
      · rw [if_neg h200] at h
        cases hb : resp.bodyRead with
        | error e =>
            rw [hb] at h
            injection h with h1
            rw [← h1]
        | ok body =>
            rw [hb] at h
            dsimp only at h
            cases hd : dd body with
            | error e =>
                rw [hd] at h
                injection h with h1
                rw [← h1]
            | ok la =>
                rw [hd] at h
                cases h

theorem fanOut_length_split (dd : DetailDecoder) (f : FetchTransport)
    (rs : List NamedAPIResource) :
    (fanOut dd f rs).1.length + (fanOut dd f rs).2.length = rs.length := by
  induction rs with
  | nil => rfl
  | cons r rs ih =>
      cases h : fetchDetail dd f r.url with
      | ok la =>
          simp only [fanOut, h, List.length_cons]
          omega
      | error p =>
          simp only [fanOut, h, List.length_cons]
          omega

theorem fanOut_errors_length (dd : DetailDecoder) (f : FetchTransport)
    (rs : List NamedAPIResource) :
    (fanOut dd f rs).2.length = (rs.filter (detailFails dd f)).length := by
  induction rs with
  | nil => rfl
  | cons r rs ih =>
      cases h : fetchDetail dd f r.url with
      | ok la => simp [fanOut, h, List.filter_cons, detailFails, ih]
      | error p => simp [fanOut, h, List.filter_cons, detailFails, ih]

theorem fanOut_records_length (dd : DetailDecoder) (f : FetchTransport)
    (rs : List NamedAPIResource) :
    (fanOut dd f rs).1.length = rs.length - (rs.filter (detailFails dd f)).length := by
  have h1 := fanOut_length_split dd f rs
  have h2 := fanOut_errors_length dd f rs
  omega

theorem fanOut_errors_urls (dd : DetailDecoder) (f : FetchTransport)
    (rs : List NamedAPIResource) :
    (fanOut dd f rs).2.map Prod.fst =
      (rs.filter (detailFails dd f)).map NamedAPIResource.url := by
  induction rs with
  | nil => rfl
  | cons r rs ih =>
      cases h : fetchDetail dd f r.url with
      | ok la => simp [fanOut, h, List.filter_cons, detailFails, ih]
      | error p =>
          have hurl := fetchDetail_error_url dd f r.url p h
          simp [fanOut, h, List.filter_cons, detailFails, ih, hurl]

/-! ### Concrete fixtures for witnesses and counterexamples

Concrete instantiations of the injected decode and transport capabilities,
used to evaluate the pipeline at specific inputs.  Byte payloads are token
values: `[1]` decodes to a two-reference list page, `[2]` to a
one-reference page, `[7]` to a detail record, anything else fails to
decode. -/

def decodeListC : ListDecoder := fun b =>
  if b = [1] then Except.ok ⟨2, some "N", some "P", [⟨"a", "u"⟩, ⟨"b", "v"⟩]⟩
  else if b = [2] then Except.ok ⟨1, none, none, [⟨"a", "u"⟩]⟩
  else Except.error "list decode error"

def decodeDetailC : DetailDecoder := fun b =>
  if b = [7] then Except.ok ⟨1, "area-a"⟩
  else Except.error "bad detail"

/-- List URL "L" serves a two-reference page; detail URL "u" serves bytes
that fail detail-decoding; every other URL (in particular detail URL "v")
fails at the transport.  So both detail fetches of page `[1]` fail. -/
def fGood : FetchTransport := fun url =>
  if url = "L" then Except.ok ⟨200, Except.ok [1]⟩
  else if url = "u" then Except.ok ⟨200, Except.ok [9]⟩
  else Except.error "connection refused"

/-- Like `fGood` but "L" serves the one-reference page `[2]`. -/
def fC2 : FetchTransport := fun url =>
  if url = "L" then Except.ok ⟨200, Except.ok [2]⟩
  else if url = "u" then Except.ok ⟨200, Except.ok [9]⟩
  else Except.error "connection refused"

/-- List URL "L" serves bytes that fail list-decoding. -/
def fBadList : FetchTransport := fun url =>
  if url = "L" then Except.ok ⟨200, Except.ok [9]⟩
  else Except.error "connection refused"

/-- The two-reference page that `decodeListC` yields for bytes `[1]`. -/
def rlTwo : NamedAPIResourceList :=
  ⟨2, some "N", some "P", [⟨"a", "u"⟩, ⟨"b", "v"⟩]⟩

/-- A cache that already holds detail URL "u" with bytes that decode
successfully as a detail record. -/
def cacheC2 : CacheMap := [("u", { createdAt := 0, val := [7] })]

/-! ### Pipeline claims -/

/-- C1: whenever the list fetch succeeds and decodes to a page `rl` with K
references, `GetLocationAreas` returns a nil top-level error (`Except.ok`),
exactly `K - M` decoded records and exactly `M` per-item errors, where `M`
is the number of references whose detail fetch fails, and each collected
error carries the offending URL — with no constraint `M < K`, so this holds
even when every detail fetch fails (`M = K`). -/
theorem getLocationAreas_fanout_completeness (dl : ListDecoder)
    (dd : DetailDecoder) (f : FetchTransport) (now : Int) (config : UrlConfig)
    (direction : String) (cache : CacheMap) (url : String)
    (rl : NamedAPIResourceList) (cache1 : CacheMap)
    (hurl : selectUrl config direction = some url)
    (hlist : listResolve dl f now url cache = (Except.ok rl, cache1)) :
    GetLocationAreas dl dd f now config direction cache =
      (Except.ok (fanOut dd f rl.results),
       { previous := rl.previous, next := rl.next }, cache1) ∧
    (fanOut dd f rl.results).1.length
        = rl.results.length - (rl.results.filter (detailFails dd f)).length ∧
    (fanOut dd f rl.results).2.length
        = (rl.results.filter (detailFails dd f)).length ∧
    (fanOut dd f rl.results).2.map Prod.fst
        = (rl.results.filter (detailFails dd f)).map NamedAPIResource.url := by
  refine ⟨?_, fanOut_records_length dd f rl.results,
    fanOut_errors_length dd f rl.results, fanOut_errors_urls dd f rl.results⟩
  simp only [GetLocationAreas, hurl, hlist]

theorem getLocationAreas_fanout_completeness_witness :
    GetLocationAreas decodeListC decodeDetailC fGood 0
        { previous := none, next := some "L" } "forward" [] =
      (Except.ok (fanOut decodeDetailC fGood rlTwo.results),
       { previous := rlTwo.previous, next := rlTwo.next },
       [("L", { createdAt := 0, val := [1] })]) ∧
    (fanOut decodeDetailC fGood rlTwo.results).1.length
        = rlTwo.results.length
          - (rlTwo.results.filter (detailFails decodeDetailC fGood)).length ∧
    (fanOut decodeDetailC fGood rlTwo.results).2.length
        = (rlTwo.results.filter (detailFails decodeDetailC fGood)).length ∧
    (fanOut decodeDetailC fGood rlTwo.results).2.map Prod.fst
        = (rlTwo.results.filter (detailFails decodeDetailC fGood)).map
            NamedAPIResource.url :=
  getLocationAreas_fanout_completeness decodeListC decodeDetailC fGood 0
    { previous := none, next := some "L" } "forward" [] "L" rlTwo
    [("L", { createdAt := 0, val := [1] })] (by rfl) (by rfl)

/-- C5: after a successful list fetch decoding to a page with `next = X` and
`previous = Y`, the returned cursor is exactly `{next := X, previous := Y}`,
whatever the detail decoder and however the detail fetches behave — the
cursor assignment happens right after the list decode, before the fan-out,
and nothing later touches it. -/
theorem getLocationAreas_cursor_update (dl : ListDecoder) (dd : DetailDecoder)
    (f : FetchTransport) (now : Int) (config : UrlConfig) (direction : String)
    (cache : CacheMap) (url : String) (rl : NamedAPIResourceList)
    (cache1 : CacheMap)
    (hurl : selectUrl config direction = some url)
    (hlist : listResolve dl f now url cache = (Except.ok rl, cache1)) :
    (GetLocationAreas dl dd f now config direction cache).2.1 =
      { previous := rl.previous, next := rl.next } := by
  simp only [GetLocationAreas, hurl, hlist]

theorem getLocationAreas_cursor_update_witness :
    (GetLocationAreas decodeListC decodeDetailC fGood 0
        { previous := none, next := some "L" } "forward" []).2.1 =
      { previous := rlTwo.previous, next := rlTwo.next } :=
  getLocationAreas_cursor_update decodeListC decodeDetailC fGood 0
    { previous := none, next := some "L" } "forward" [] "L" rlTwo
    [("L", { createdAt := 0, val := [1] })] (by rfl) (by rfl)

/-- C2 counterexample: the detail URL "u" sits in the cache with bytes `[7]`
that decode successfully, so under the claimed cache-or-network rule
(embodied by `fetchDetailSpecRule`, written from the spec's words) the
detail fetch would return the decoded record from the cache; but the source
(`GetLocationAreas` calling `fetchDetail`, which is `http.Get` with no cache
interaction) goes to the network, receives bytes `[9]`, fails to decode
them, and reports a per-item error for "u" instead of the cached record. -/
theorem getLocationAreas_detail_cache_counterexample :
    (cacheGet cacheC2 "u").1 = (some [7], true) ∧
    decodeDetailC [7] = Except.ok { id := 1, name := "area-a" } ∧
    (fetchDetailSpecRule decodeDetailC fC2 0 "u" cacheC2).1 =
      Except.ok { id := 1, name := "area-a" } ∧
    (GetLocationAreas decodeListC decodeDetailC fC2 0
        { previous := none, next := some "L" } "forward" cacheC2).1 =
      Except.ok ([], [("u", "error unmarshaling detail JSON for u: bad detail")]) := by
  refine ⟨rfl, rfl, rfl, rfl⟩

/-- C2 amended: each detail fetch bypasses the cache entirely — it is a
direct network fetch, status check, body read and decode (`fetchDetail`,
which takes no cache argument), so the batch outcome is exactly
`fanOut dd f rl.results` and the final cache state is exactly the state
left behind by the list step; the cache-or-network rule applies only to the
list fetch. -/
theorem getLocationAreas_detail_no_cache (dl : ListDecoder)
    (dd : DetailDecoder) (f : FetchTransport) (now : Int) (config : UrlConfig)
    (direction : String) (cache : CacheMap) (url : String)
    (rl : NamedAPIResourceList) (cache1 : CacheMap)
    (hurl : selectUrl config direction = some url)
    (hlist : listResolve dl f now url cache = (Except.ok rl, cache1)) :
    (GetLocationAreas dl dd f now config direction cache).2.2 = cache1 ∧
    (GetLocationAreas dl dd f now config direction cache).1 =
      Except.ok (fanOut dd f rl.results) := by
  constructor <;> simp only [GetLocationAreas, hurl, hlist]

theorem getLocationAreas_detail_no_cache_witness :
    (GetLocationAreas decodeListC decodeDetailC fGood 0
        { previous := none, next := some "L" } "forward" []).2.2 =
      [("L", { createdAt := 0, val := [1] })] ∧
    (GetLocationAreas decodeListC decodeDetailC fGood 0
        { previous := none, next := some "L" } "forward" []).1 =
      Except.ok (fanOut decodeDetailC fGood rlTwo.results) :=
  getLocationAreas_detail_no_cache decodeListC decodeDetailC fGood 0
    { previous := none, next := some "L" } "forward" [] "L" rlTwo
    [("L", { createdAt := 0, val := [1] })] (by rfl) (by rfl)

/-- C3 counterexample: the list URL "L" is absent from the (empty) cache;
its network fetch succeeds with status 200 and body `[9]`, the source then
executes `cache.Add(listAPIURL, body)` BEFORE `json.Unmarshal`, and the
decode fails — so the call returns a non-nil error with zero records, yet
the cache now holds an entry for "L" that was not there before the call,
contradicting the claim that no such entry appears on any list-fetch
failure. -/
theorem getLocationAreas_list_decode_cache_counterexample :
    mapLookup [] "L" = none ∧
    (GetLocationAreas decodeListC decodeDetailC fBadList 0
        { previous := none, next := some "L" } "forward" []).1 =
      Except.error "list decode error" ∧
    mapLookup
      (GetLocationAreas decodeListC decodeDetailC fBadList 0
        { previous := none, next := some "L" } "forward" []).2.2 "L" =
      some { createdAt := 0, val := [9] } := by
  refine ⟨rfl, rfl, rfl⟩

/-- C3 amended: every list-fetch failure (transport error, non-OK status,
body-read error, or decode error) yields zero records, a non-nil top-level
error and an unchanged cursor; the cache is left unmodified for the list
URL in every failure case EXCEPT one — when the network fetch and body read
succeed and only the decode fails, the raw body has already been stored
under the list URL (the source adds to the cache before unmarshaling). -/
theorem getLocationAreas_list_fatality (dl : ListDecoder) (dd : DetailDecoder)
    (f : FetchTransport) (now : Int) (config : UrlConfig) (direction : String)
    (cache : CacheMap) (url : String) (e : String) (cache1 : CacheMap)
    (hurl : selectUrl config direction = some url)
    (hfail : listResolve dl f now url cache = (Except.error e, cache1)) :
    GetLocationAreas dl dd f now config direction cache =
      (Except.error e, config, cache1) ∧
    (∀ entry, mapLookup cache url = some entry → cache1 = cache) ∧
    (mapLookup cache url = none →
      cache1 = cache ∨
      ∃ body, f url = Except.ok { statusCode := 200, bodyRead := Except.ok body } ∧
        dl body = Except.error e ∧ cache1 = cacheAdd cache url body now) := by
  refine ⟨?_, ?_, ?_⟩
  · simp only [GetLocationAreas, hurl, hfail]
  · intro entry hentry
    unfold listResolve cacheGet at hfail
    rw [hentry] at hfail
    dsimp only at hfail
    simp only [Prod.mk.injEq] at hfail
    exact hfail.2.symm
  · intro hnone
    unfold listResolve cacheGet at hfail
    rw [hnone] at hfail
    dsimp only at hfail
    cases hf : f url with
    | error e2 =>
        rw [hf] at hfail
        dsimp only at hfail
        simp only [Prod.mk.injEq] at hfail
        exact Or.inl hfail.2.symm
    | ok resp =>
        obtain ⟨sc, br⟩ := resp
        rw [hf] at hfail
        dsimp only at hfail
        by_cases h200 : sc ≠ 200
        · rw [if_pos h200] at hfail
          simp only [Prod.mk.injEq] at hfail
          exact Or.inl hfail.2.symm
        · rw [if_neg h200] at hfail
          have hsc : sc = 200 := by omega
          cases hb : br with
          | error e3 =>
              rw [hb] at hfail
              dsimp only at hfail
              simp only [Prod.mk.injEq] at hfail
              exact Or.inl hfail.2.symm
          | ok body =>
              rw [hb] at hfail
              dsimp only at hfail
              cases hdl : dl body with
              | ok rl =>
                  rw [hdl] at hfail
                  dsimp only at hfail
                  simp only [Prod.mk.injEq] at hfail
                  exact absurd hfail.1 (by simp)
              | error e4 =>
                  rw [hdl] at hfail
                  dsimp only at hfail
                  simp only [Prod.mk.injEq] at hfail
                  obtain ⟨h1, h2⟩ := hfail
                  injection h1 with h1
                  refine Or.inr ⟨body, ?_, ?_, h2.symm⟩
                  · subst hsc
                    subst hb
                    rfl
                  · rw [hdl, h1]

theorem getLocationAreas_list_fatality_witness :
    GetLocationAreas decodeListC decodeDetailC fGood 0
        { previous := none, next := some "X" } "forward" [] =
      (Except.error "connection refused",
       { previous := none, next := some "X" }, []) ∧
    (∀ entry, mapLookup [] "X" = some entry → ([] : CacheMap) = []) ∧
    (mapLookup [] "X" = none →
      ([] : CacheMap) = [] ∨
      ∃ body, fGood "X" = Except.ok { statusCode := 200, bodyRead := Except.ok body } ∧
        decodeListC body = Except.error "connection refused" ∧
        ([] : CacheMap) = cacheAdd [] "X" body 0) :=
  getLocationAreas_list_fatality decodeListC decodeDetailC fGood 0
    { previous := none, next := some "X" } "forward" [] "X" "connection refused"
    [] (by rfl) (by rfl)

/-- C4: when the cursor's `previous` field is nil, `commandMapb` returns the
"No previous page available." error with the cursor and the cache unchanged,
and the result is the same constant for EVERY transport and EVERY cache
state — so no network call, no cache operation and no `GetLocationAreas`
invocation can have taken place. -/
theorem commandMapb_no_previous_guard (dl : ListDecoder) (dd : DetailDecoder)
    (f : FetchTransport) (now : Int) (config : UrlConfig) (cache : CacheMap)
    (h : config.previous = none) :
    commandMapb dl dd f now config cache =
      (Except.error "No previous page available.", config, cache) := by
  simp only [commandMapb, h]

theorem commandMapb_no_previous_guard_witness :
    commandMapb decodeListC decodeDetailC fGood 0
        { previous := none, next := some "L" } [] =
      (Except.error "No previous page available.",
       { previous := none, next := some "L" }, []) :=
  commandMapb_no_previous_guard decodeListC decodeDetailC fGood 0
    { previous := none, next := some "L" } [] (by rfl)
